import Mathlib

/-!
Verification of the statistics and reporting core of the media batch
compressor (`compress.py`).

Modelling conventions:
- Python strings are modelled as `List Char` (the filename machinery) or as
  `String` (labels and status texts that are only carried around).
- Python floats (file processing times, compression ratios) are modelled as
  exact rationals `ℚ`; float rounding is outside the model.
- `str.isalnum` / `\d` / `\s` are modelled by the ASCII predicates
  `Char.isAlpha`, `Char.isDigit`, `Char.isWhitespace`; the repository only
  manipulates ASCII report names.
- File-system state (the set of sibling file names in a directory) is passed
  explicitly as a list of names.
-/

/-- Decimal digit character for a value below ten, as produced by Python
string formatting of integers (`Nat.digitChar` agrees on inputs below 16). -/
def digitChar (n : ℕ) : Char := Nat.digitChar n

/-- Fuel-driven accumulator loop printing the decimal digits of a natural
number, most significant first, in front of an accumulator. -/
def natReprAux : ℕ → ℕ → List Char → List Char
  | 0, _, acc => acc
  | fuel + 1, n, acc =>
    if n < 10 then digitChar n :: acc
    else natReprAux fuel (n / 10) (digitChar (n % 10) :: acc)

/-- Decimal representation of a natural number as a character list, modelling
Python integer formatting (`f"{n}"`). -/
def natRepr (n : ℕ) : List Char := natReprAux (n + 1) n []

/-- Numeric value of a list of decimal digit characters, most significant
first (the inverse of `natRepr` used by the counter-matching regex). -/
def digitsVal (l : List Char) : ℕ := l.foldl (fun a c => 10 * a + (c.toNat - 48)) 0

/-- Trim leading and trailing whitespace, modelling Python `str.strip()`. -/
def pyStrip (l : List Char) : List Char :=
  ((l.dropWhile Char.isWhitespace).reverse.dropWhile Char.isWhitespace).reverse

/-!
Unique report naming, from `get_unique_report_path` (compress.py 662-691).
A report path is modelled by the pair (stem, suffix) produced by `pathlib`
(`base_path.stem`, `base_path.suffix`); the parent directory's contents are
the explicit list `siblings` of file names.
-/

/-- Removal of one trailing parenthesised counter from a file stem, following
the regex match on the pattern anchored at both ends whose first group is the
shortest non-empty prefix such that the remainder is optional whitespace
followed by a single parenthesised digit group (compress.py 673-677); the
matched group is then stripped of surrounding whitespace. -/
def stripCounterSuffix (stem : List Char) : List Char :=
  match stem.reverse with
  | ')' :: rest =>
    let ds := rest.takeWhile Char.isDigit
    if ds = [] then pyStrip stem
    else
      match rest.drop ds.length with
      | '(' :: before =>
        if before = [] then pyStrip stem else pyStrip before.reverse
      | _ => pyStrip stem
  | _ => pyStrip stem

/-- Match of the glob pattern `f"{base}*{suffix}"` used to enumerate sibling
candidates (compress.py 682): the name decomposes as base, anything, suffix. -/
def globMatch (base suffix name : List Char) : Prop :=
  base <+: name ∧ suffix <:+ name.drop base.length

instance (base suffix name : List Char) : Decidable (globMatch base suffix name) :=
  inferInstanceAs (Decidable (_ ∧ _))

/-- Match of the counting regex `escape(base) + r'\s*\((\d+)\)' + escape(suffix)`
applied with `re.match` (prefix-anchored, compress.py 681-685): after the base,
optional whitespace, then a parenthesised digit group, then the suffix must
follow; the digit group's value is returned. -/
def matchCounter (base suffix name : List Char) : Option ℕ :=
  if base <+: name then
    match (name.drop base.length).dropWhile Char.isWhitespace with
    | '(' :: r =>
      let ds := r.takeWhile Char.isDigit
      if ds = [] then none
      else
        match r.drop ds.length with
        | ')' :: r2 => if suffix <+: r2 then some (digitsVal ds) else none
        | _ => none
    | _ => none
  else none

/-- Counter extracted from one sibling name: the glob pre-filter followed by
the counting regex (compress.py 680-685). -/
def reportCounterOf (base suffix name : List Char) : Option ℕ :=
  if globMatch base suffix name then matchCounter base suffix name else none

/-- Unique report path selection (compress.py 662-691): keep the natural name
when it does not exist yet; otherwise strip a trailing counter from the stem,
collect the counters of all sibling files matched by the glob and the counting
regex, and append a counter one past their maximum (1 when none matched). -/
def getUniqueReportPath (siblings : List (List Char)) (stem suffix : List Char) :
    List Char :=
  if (stem ++ suffix) ∉ siblings then stem ++ suffix
  else
    let base := stripCounterSuffix stem
    let nums := siblings.filterMap (reportCounterOf base suffix)
    let counter := if nums = [] then 1 else nums.foldl max 0 + 1
    base ++ (' ' :: '(' :: (natRepr counter ++ (')' :: suffix)))

/-- Counter extraction following the specification text literally: a sibling
counts only when its name is exactly the base, one space, a parenthesised
digit group, and the extension, with nothing else. Written from the spec's
words for comparison against `reportCounterOf`, which is translated from the
code. -/
def specCounterOf (base suffix name : List Char) : Option ℕ :=
  if base <+: name then
    match name.drop base.length with
    | ' ' :: '(' :: r =>
      let ds := r.takeWhile Char.isDigit
      if ds = [] then none
      else
        match r.drop ds.length with
        | ')' :: r2 => if r2 = suffix then some (digitsVal ds) else none
        | _ => none
    | _ => none
  else none

/-- Unique report path selection following the specification text literally:
identical to `getUniqueReportPath` except that siblings are matched with the
exact template of the spec (`specCounterOf`) rather than the code's tolerant
pattern. Written from the spec's words for the refinement comparison. -/
def specUniqueReportPath (siblings : List (List Char)) (stem suffix : List Char) :
    List Char :=
  if (stem ++ suffix) ∉ siblings then stem ++ suffix
  else
    let base := stripCounterSuffix stem
    let nums := siblings.filterMap (specCounterOf base suffix)
    let counter := if nums = [] then 1 else nums.foldl max 0 + 1
    base ++ (' ' :: '(' :: (natRepr counter ++ (')' :: suffix)))

/-!
Per-folder report file naming, from `generate_report` (compress.py 789-793).
-/

/-- Character class kept by the sanitisation comprehension (compress.py 790):
alphanumeric characters and space, dash, underscore, backslash, slash. -/
def keepChar (c : Char) : Bool :=
  c.isAlpha || c.isDigit || c = ' ' || c = '-' || c = '_' || c = '\\' || c = '/'

/-- Single-character substitution, modelling Python `str.replace` for
one-character patterns. -/
def replaceChar (a b : Char) (l : List Char) : List Char :=
  l.map fun c => if c = a then b else c

/-- Filesystem-safe transliteration of a folder key (compress.py 790-793):
keep only the allowed characters, strip surrounding whitespace, replace
spaces and both path separators by underscores, and fall back to "root" when
the result is empty or ".". -/
def folderSafeName (key : List Char) : List Char :=
  let s := pyStrip (key.filter keepChar)
  let s := replaceChar '/' '_' (replaceChar '\\' '_' (replaceChar ' ' '_' s))
  if s = [] ∨ s = ['.'] then "root".toList else s

/-- Folder-name transliteration following the claim text literally: strip
every character that is not alphanumeric and not one of space, dash,
underscore, slash, backslash; replace spaces and both path separators with
underscores; use "root" when the result is empty or ".". Written from the
spec's words (which omit the code's surrounding-whitespace strip) for
comparison against `folderSafeName`. -/
def specFolderSafeName (key : List Char) : List Char :=
  let s := key.filter fun c =>
    !(!(c.isAlpha || c.isDigit)
      && !(c = ' ' || c = '-' || c = '_' || c = '/' || c = '\\'))
  let s := s.map fun c => if c = ' ' ∨ c = '\\' ∨ c = '/' then '_' else c
  if s = [] ∨ s = ['.'] then "root".toList else s

/-- Folder-name transliteration as the claim reads after amendment: the same
recipe with the code's surrounding-whitespace trim inserted between the strip
and the replacement. -/
def amendedFolderSafeName (key : List Char) : List Char :=
  let s := key.filter fun c =>
    !(!(c.isAlpha || c.isDigit)
      && !(c = ' ' || c = '-' || c = '_' || c = '/' || c = '\\'))
  let s := pyStrip s
  let s := s.map fun c => if c = ' ' ∨ c = '\\' ∨ c = '/' then '_' else c
  if s = [] ∨ s = ['.'] then "root".toList else s

/-!
Formatting utilities: `format_size` (compress.py 34-40) and the processing
time formatter of `write_csv_report` (compress.py 727-738).
-/

/-- String of the decimal digits of a natural number. -/
def natStr (n : ℕ) : String := ⟨natRepr n⟩

/-- String of an integer, with a leading minus sign when negative, modelling
Python integer formatting. -/
def intStr (i : ℤ) : String := if i < 0 then "-" ++ natStr i.natAbs else natStr i.natAbs

/-- Nearest integer with ties to even, the rounding used by Python `format`
of floats. -/
def roundHalfEven (q : ℚ) : ℤ :=
  if q - ⌊q⌋ < 1 / 2 then ⌊q⌋
  else if 1 / 2 < q - ⌊q⌋ then ⌊q⌋ + 1
  else if ⌊q⌋ % 2 = 0 then ⌊q⌋ else ⌊q⌋ + 1

/-- Two-digit zero-padded string of a value below one hundred. -/
def pad2 (m : ℕ) : String := if m < 10 then "0" ++ natStr m else natStr m

/-- Fixed-point rendering with two decimal places, modelling `f"{x:.2f}"`. -/
def formatFixed2 (q : ℚ) : String :=
  let n := roundHalfEven (q * 100)
  let sign := if n < 0 then "-" else ""
  sign ++ natStr (n.natAbs / 100) ++ "." ++ pad2 (n.natAbs % 100)

/-- Fixed-point rendering with one decimal place, modelling `f"{x:.1f}"`. -/
def formatFixed1 (q : ℚ) : String :=
  let n := roundHalfEven (q * 10)
  let sign := if n < 0 then "-" else ""
  sign ++ natStr (n.natAbs / 10) ++ "." ++ natStr (n.natAbs % 10)

/-- Unit loop of `format_size` (compress.py 36-40): try each unit in order,
dividing by 1024 until the value drops below 1024, falling back to petabytes
after the last unit. -/
def formatSizeAux : List String → ℚ → String
  | [], x => formatFixed2 x ++ " PB"
  | u :: us, x => if x < 1024 then formatFixed2 x ++ " " ++ u else formatSizeAux us (x / 1024)

/-- Human-readable byte count, from `format_size` (compress.py 34-40). -/
def formatSize (x : ℚ) : String := formatSizeAux ["B", "KB", "MB", "GB", "TB"] x

/-- Python float modulo for a positive modulus, as used on processing times. -/
def pyMod (a b : ℚ) : ℚ := a - b * ⌊a / b⌋

/-- Processing-time line formatting (compress.py 729-737): hours and minutes
by integer division, seconds to one decimal place, with the hour component
present only when the hour count is positive and the minute component present
only when an hour or minute count is positive. -/
def formatDuration (t : ℚ) : String :=
  let hours : ℤ := ⌊t / 3600⌋
  let minutes : ℤ := ⌊pyMod t 3600 / 60⌋
  let seconds : ℚ := pyMod t 60
  if 0 < hours then
    intStr hours ++ "h " ++ intStr minutes ++ "m " ++ formatFixed1 seconds ++ "s"
  else if 0 < minutes then
    intStr minutes ++ "m " ++ formatFixed1 seconds ++ "s"
  else
    formatFixed1 seconds ++ "s"

/-!
Statistics accumulation, from the per-file loop of `compress_media`
(compress.py 321-641). Only the statistics bookkeeping is modelled; the
actual transcoding, printing and file moves are environment effects whose
observable results (the output already existed, the produced size, or a
failure) drive each step as a `FileEvent`.
-/

/-- Record appended to the `files` lists, from the `file_info` dictionaries
(compress.py 522-530, 554-562, 596-604, 619-627). -/
structure FileInfo where
  name : String
  original_size : ℕ
  compressed_size : ℕ
  space_saved : ℤ
  compression_rate : ℚ
  processing_time : ℚ
  status : String
  deriving DecidableEq, Repr

/-- Per-folder statistics record (compress.py 343-352). -/
structure FolderStat where
  total_files : ℕ := 0
  processed : ℕ := 0
  skipped : ℕ := 0
  errors : ℕ := 0
  total_original_size : ℕ := 0
  total_compressed_size : ℕ := 0
  space_saved : ℤ := 0
  files : List FileInfo := []
  deriving DecidableEq, Repr

/-- Run-wide statistics record (compress.py 304-317); the `folder_stats`
mapping is an insertion-ordered association list, like a Python dict, and
stays empty in non-recursive runs. -/
structure RunStats where
  total_files : ℕ
  processed : ℕ := 0
  skipped : ℕ := 0
  errors : ℕ := 0
  total_original_size : ℕ := 0
  total_compressed_size : ℕ := 0
  space_saved : ℤ := 0
  files : List FileInfo := []
  folder_stats : List (String × FolderStat) := []
  total_processing_time : ℚ := 0
  deriving DecidableEq, Repr

/-- Run configuration flags consumed by the statistics loop. -/
structure Config where
  recursive : Bool
  overwrite : Bool
  keep_if_larger : Bool
  deriving DecidableEq, Repr

/-- Observable result of handling one file: the output path already existed
and the file was skipped (compress.py 364, reached only in non-overwrite
mode), the transcoder produced an output of the given size (compress.py
381-495), or the transcoder failed (compress.py 590-635). -/
inductive FileEvent where
  | skipExisting (existingSize : ℕ)
  | compressedTo (compressedSize : ℕ)
  | failed (message : String)
  deriving DecidableEq, Repr

/-- One file presented to the loop: its run-relative name, its folder key
(compress.py 330-339, "root" in non-recursive mode), its size on disk, what
the environment did with it, and the wall-clock time that took. -/
structure FileJob where
  name : String
  folderKey : String
  originalSize : ℕ
  event : FileEvent
  time : ℚ
  deriving DecidableEq, Repr

/-- Zero-valued folder record, as lazily initialised (compress.py 343-352). -/
def zeroFolder : FolderStat :=
  { total_files := 0, processed := 0, skipped := 0, errors := 0
    total_original_size := 0, total_compressed_size := 0
    space_saved := 0, files := [] }

/-- Membership of a key in the folder mapping (`folder_key not in
stats["folder_stats"]`, compress.py 342). -/
def containsKey (fs : List (String × FolderStat)) (k : String) : Bool :=
  fs.any fun kv => kv.1 = k

/-- Lazy initialisation of a folder entry (compress.py 342-352): append a
zero-valued record when the key is not present yet. -/
def ensureFolder (fs : List (String × FolderStat)) (k : String) :
    List (String × FolderStat) :=
  if containsKey fs k then fs else fs ++ [(k, zeroFolder)]

/-- In-place update of the entry of one key, like mutation of a Python dict
value; keys are unique by construction, so only the first hit is updated. -/
def updateFolder (k : String) (g : FolderStat → FolderStat) :
    List (String × FolderStat) → List (String × FolderStat)
  | [] => []
  | kv :: rest =>
    if kv.1 = k then (kv.1, g kv.2) :: rest else kv :: updateFolder k g rest

/-- Folder record of a key, zero-valued when absent. -/
def lookupFolder (fs : List (String × FolderStat)) (k : String) : FolderStat :=
  match fs.find? (fun kv => kv.1 = k) with
  | some kv => kv.2
  | none => zeroFolder

/-- Statistics effect of one file of the loop body (compress.py 321-635):
folder registration (342-361), the skip of an already compressed output
(364-373), the larger-than-original handling (500-546), the success path
(548-571) and the error paths (590-635). -/
def processFile (cfg : Config) (s : RunStats) (job : FileJob) : RunStats :=
  let fs0 := if cfg.recursive then ensureFolder s.folder_stats job.folderKey else s.folder_stats
  let fs1 := if cfg.recursive then
      updateFolder job.folderKey
        (fun v => { v with
          total_files := v.total_files + 1
          total_original_size := v.total_original_size + job.originalSize }) fs0
    else fs0
  let s := { s with
    total_original_size := s.total_original_size + job.originalSize
    folder_stats := fs1 }
  match job.event with
  | .skipExisting existingSize =>
    { s with
      total_compressed_size := s.total_compressed_size + existingSize
      skipped := s.skipped + 1
      folder_stats := if cfg.recursive then
          updateFolder job.folderKey
            (fun v => { v with
              skipped := v.skipped + 1
              total_compressed_size := v.total_compressed_size + existingSize })
            s.folder_stats
        else s.folder_stats }
  | .failed message =>
    let info : FileInfo :=
      { name := job.name
        original_size := job.originalSize
        compressed_size := 0
        space_saved := 0
        compression_rate := 0
        processing_time := job.time
        status := "error: " ++ message }
    { s with
      errors := s.errors + 1
      files := s.files ++ [info]
      folder_stats := if cfg.recursive then
          updateFolder job.folderKey
            (fun v => { v with
              files := v.files ++ [info]
              errors := v.errors + 1 })
            s.folder_stats
        else s.folder_stats }
  | .compressedTo compressedSize =>
    let saved : ℤ := (job.originalSize : ℤ) - (compressedSize : ℤ)
    let rate : ℚ := if 0 < job.originalSize then
        (saved : ℚ) / (job.originalSize : ℚ) * 100 else 0
    if compressedSize > job.originalSize ∧ cfg.keep_if_larger = false then
      if cfg.overwrite = false then
        let info : FileInfo :=
          { name := job.name
            original_size := job.originalSize
            compressed_size := job.originalSize
            space_saved := 0
            compression_rate := 0
            processing_time := job.time
            status := "success (copied original)" }
        { s with
          total_compressed_size := s.total_compressed_size + job.originalSize
          space_saved := s.space_saved + 0
          files := s.files ++ [info]
          processed := s.processed + 1
          folder_stats := if cfg.recursive then
              updateFolder job.folderKey
                (fun v => { v with
                  files := v.files ++ [info]
                  processed := v.processed + 1
                  total_compressed_size := v.total_compressed_size + job.originalSize
                  space_saved := v.space_saved + 0 })
                s.folder_stats
            else s.folder_stats }
      else
        { s with
          skipped := s.skipped + 1
          folder_stats := if cfg.recursive then
              updateFolder job.folderKey
                (fun v => { v with skipped := v.skipped + 1 })
                s.folder_stats
            else s.folder_stats }
    else
      let info : FileInfo :=
        { name := job.name
          original_size := job.originalSize
          compressed_size := compressedSize
          space_saved := saved
          compression_rate := rate
          processing_time := job.time
          status := "success" }
      { s with
        total_compressed_size := s.total_compressed_size + compressedSize
        space_saved := s.space_saved + saved
        files := s.files ++ [info]
        processed := s.processed + 1
        folder_stats := if cfg.recursive then
            updateFolder job.folderKey
              (fun v => { v with
                files := v.files ++ [info]
                processed := v.processed + 1
                total_compressed_size := v.total_compressed_size + compressedSize
                space_saved := v.space_saved + saved })
              s.folder_stats
          else s.folder_stats }

/-- Initial statistics of a run over the given number of discovered files
(compress.py 304-317). -/
def initStats (n : ℕ) : RunStats := { total_files := n }

/-- Statistics after a whole run: fold the loop body over the files in
processing order, then set the total processing time once (compress.py
637-641). -/
def runStats (cfg : Config) (jobs : List FileJob) (totalTime : ℚ) : RunStats :=
  { jobs.foldl (processFile cfg) (initStats jobs.length) with
    total_processing_time := totalTime }

/-!
Report generation, from `generate_report` (compress.py 644-842).
-/

/-- Statistics record of the aggregated report (compress.py 803-813). -/
structure AggStats where
  total_files : ℕ
  processed : ℕ
  skipped : ℕ
  errors : ℕ
  total_original_size : ℕ
  total_compressed_size : ℕ
  space_saved : ℤ
  total_processing_time : ℚ
  files : List FileInfo
  deriving DecidableEq, Repr

/-- One iteration of the aggregation loop (compress.py 816-824). -/
def aggStep (acc : AggStats) (kv : String × FolderStat) : AggStats :=
  { acc with
    total_files := acc.total_files + kv.2.total_files
    processed := acc.processed + kv.2.processed
    skipped := acc.skipped + kv.2.skipped
    errors := acc.errors + kv.2.errors
    total_original_size := acc.total_original_size + kv.2.total_original_size
    total_compressed_size := acc.total_compressed_size + kv.2.total_compressed_size
    space_saved := acc.space_saved + kv.2.space_saved
    files := acc.files ++ kv.2.files }

/-- Aggregation of all folder statistics into one record (compress.py
803-824): field-wise sums over every folder entry, file lists concatenated in
folder-iteration order, and the total processing time taken from the
top-level run statistics. -/
def aggregateStats (folderStats : List (String × FolderStat)) (totalTime : ℚ) :
    AggStats :=
  folderStats.foldl aggStep
    { total_files := 0, processed := 0, skipped := 0, errors := 0
      total_original_size := 0, total_compressed_size := 0, space_saved := 0
      total_processing_time := totalTime, files := [] }

/-- One rendered report artifact of a run. -/
inductive ReportKind where
  | perFolder (folderKey : String)
  | aggregated
  | single
  deriving DecidableEq, Repr

/-- Which reports `generate_report` renders (compress.py 777-840): in
recursive mode with a non-empty folder mapping, one per-folder report for
every folder with at least one discovered file (empty folders are skipped,
778-787) followed by exactly one aggregated report (826-831); otherwise a
single whole-run report (833-840). -/
def generateReportPlan (recursive : Bool) (folderStats : List (String × FolderStat)) :
    List ReportKind :=
  if recursive = true ∧ folderStats ≠ [] then
    (folderStats.filter (fun kv => kv.2.total_files ≠ 0)).map
      (fun kv => ReportKind.perFolder kv.1) ++ [ReportKind.aggregated]
  else [ReportKind.single]

/-!
Report-write error propagation (compress.py 693-707, 833-840) contrasted
with the persistence layer of the statistics manager. Writing a file either
succeeds or raises; exceptions are modelled with `Except`.
-/

/-- Whether the target directory accepts writes. -/
structure Disk where
  writable : Bool
  deriving DecidableEq, Repr

/-- One file write: raises (returns `Except.error`) when the directory is
unwritable. -/
def writeFileOnDisk (d : Disk) (path : List Char) : Except (List Char) Unit :=
  if d.writable then Except.ok () else Except.error ("unwritable: ".toList ++ path)

/-- Per-folder report loop of `generate_report` (compress.py 784-800): each
non-empty folder's report is written in turn; a failing write aborts the loop
with the raised error. Returns the written paths. -/
def writeFolderReports (d : Disk) (folderStats : List (String × FolderStat)) :
    Except (List Char) (List (List Char)) :=
  folderStats.foldlM
    (fun acc kv =>
      if kv.2.total_files = 0 then Except.ok acc
      else
        Except.map (fun _ => acc ++ [folderSafeName kv.1.toList ++ "_report.csv".toList])
          (writeFileOnDisk d (folderSafeName kv.1.toList ++ "_report.csv".toList)))
    []

/-- Report rendering with its writes (compress.py 777-840): every planned
report is written through `write_csv_report`, which opens the artifact with
no exception handler (693-707), so the first failing write propagates to the
caller. Returns the written paths. -/
def generateReportWrites (d : Disk) (recursive : Bool)
    (folderStats : List (String × FolderStat)) (safeName : List Char) :
    Except (List Char) (List (List Char)) :=
  if recursive = true ∧ folderStats ≠ [] then
    Except.bind (writeFolderReports d folderStats) fun perFolder =>
      Except.map (fun _ => perFolder ++ ["aggregated_report.csv".toList])
        (writeFileOnDisk d "aggregated_report.csv".toList)
  else
    Except.map (fun _ => [safeName ++ "_report.csv".toList])
      (writeFileOnDisk d (safeName ++ "_report.csv".toList))

/-- Cumulative cross-run ledger. Modelled from the spec: the repository's
`compressy/services/statistics.py` (the `StatisticsManager` owning the ledger
and history log) is not part of the sources, only its tests are; the record
follows spec section 3. -/
structure CumulativeLedger where
  total_runs : ℕ
  total_files_processed : ℕ
  total_files_skipped : ℕ
  total_files_errors : ℕ
  total_original_size_bytes : ℕ
  total_compressed_size_bytes : ℕ
  total_space_saved_bytes : ℕ
  last_updated : Option String
  deriving DecidableEq, Repr

/-- Ledger persistence. Modelled from the spec: `save_cumulative_stats` of
the missing `StatisticsManager` catches any write failure, emits a one-line
warning, and returns normally instead of raising (spec sections 4.3 and 7;
the repository's tests assert the same). Returns the emitted warnings. -/
def saveCumulativeStats (d : Disk) (ledger : CumulativeLedger) :
    Except (List Char) (List (List Char)) :=
  match writeFileOnDisk d "statistics.csv".toList with
  | Except.ok _ => Except.ok []
  | Except.error e => Except.ok ["Warning: Could not save statistics: ".toList ++ e]

/-- History persistence. Modelled from the spec: `append_run_history` of the
missing `StatisticsManager` catches any write failure, warns and returns
normally, matching the save-ledger failure policy (spec section 4.3). -/
def appendRunHistory (d : Disk) (entry : String) :
    Except (List Char) (List (List Char)) :=
  match writeFileOnDisk d "run_history.csv".toList with
  | Except.ok _ => Except.ok []
  | Except.error e => Except.ok ["Warning: Could not append run history: ".toList ++ e]

/-- Multiset of all file records held across the per-folder lists. -/
def foldersFiles (fs : List (String × FolderStat)) : Multiset FileInfo :=
  (fs.map fun kv => (kv.2.files : Multiset FileInfo)).sum

/-!
Supporting lemmas about the decimal printer.
-/

theorem natReprAux_fuel_irrel (f₁ : ℕ) :
    ∀ f₂ n acc, n < f₁ → n < f₂ → natReprAux f₁ n acc = natReprAux f₂ n acc := by
  induction f₁ with
  | zero => intro f₂ n acc h; omega
  | succ f ih =>
    intro f₂ n acc _ h₂
    match f₂, h₂ with
    | f₂ + 1, h₂ =>
      by_cases h10 : n < 10
      · simp [natReprAux, h10]
      · simp only [natReprAux, h10, if_false]
        exact ih f₂ (n / 10) _ (by omega) (by omega)

theorem natReprAux_acc (n : ℕ) :
    ∀ f acc, n < f → natReprAux f n acc = natRepr n ++ acc := by
  induction n using Nat.strong_induction_on with
  | _ n ih =>
    intro f acc hf
    match f, hf with
    | f + 1, hf =>
      by_cases h10 : n < 10
      · simp [natReprAux, natRepr, h10]
      · have hdiv : n / 10 < n := Nat.div_lt_self (by omega) (by norm_num)
        simp only [natReprAux, h10, if_false]
        rw [ih (n / 10) hdiv f _ (by omega)]
        have : natRepr n = natRepr (n / 10) ++ [digitChar (n % 10)] := by
          simp only [natRepr, natReprAux, h10, if_false]
          exact ih (n / 10) hdiv n _ (by omega)
        rw [this, List.append_assoc]
        rfl

theorem natRepr_lt10 {n : ℕ} (h : n < 10) : natRepr n = [digitChar n] := by
  simp [natRepr, natReprAux, h]

theorem natRepr_ge10 {n : ℕ} (h : 10 ≤ n) :
    natRepr n = natRepr (n / 10) ++ [digitChar (n % 10)] := by
  have hdiv : n / 10 < n := Nat.div_lt_self (by omega) (by norm_num)
  simp only [natRepr, natReprAux, Nat.not_lt.mpr h, if_false]
  exact natReprAux_acc (n / 10) n _ (by omega)

theorem digitChar_isDigit {d : ℕ} (h : d < 10) : (digitChar d).isDigit = true := by
  interval_cases d <;> decide

theorem digitChar_toNat {d : ℕ} (h : d < 10) : (digitChar d).toNat = 48 + d := by
  interval_cases d <;> decide

theorem natRepr_all_digits (n : ℕ) : ∀ c ∈ natRepr n, c.isDigit = true := by
  induction n using Nat.strong_induction_on with
  | _ n ih =>
    by_cases h10 : n < 10
    · rw [natRepr_lt10 h10]
      intro c hc
      rw [List.mem_singleton] at hc
      subst hc
      exact digitChar_isDigit h10
    · rw [natRepr_ge10 (by omega)]
      intro c hc
      rw [List.mem_append] at hc
      rcases hc with hc | hc
      · exact ih (n / 10) (Nat.div_lt_self (by omega) (by norm_num)) c hc
      · rw [List.mem_singleton] at hc
        subst hc
        exact digitChar_isDigit (Nat.mod_lt _ (by norm_num))

theorem natRepr_ne_nil (n : ℕ) : natRepr n ≠ [] := by
  by_cases h10 : n < 10
  · rw [natRepr_lt10 h10]; simp
  · rw [natRepr_ge10 (by omega)]; simp

theorem digitsVal_append_single (l : List Char) (c : Char) :
    digitsVal (l ++ [c]) = 10 * digitsVal l + (c.toNat - 48) := by
  simp [digitsVal, List.foldl_append]

theorem digitsVal_natRepr (n : ℕ) : digitsVal (natRepr n) = n := by
  induction n using Nat.strong_induction_on with
  | _ n ih =>
    by_cases h10 : n < 10
    · rw [natRepr_lt10 h10]
      simp [digitsVal, digitChar_toNat h10]
    · rw [natRepr_ge10 (by omega), digitsVal_append_single,
        ih (n / 10) (Nat.div_lt_self (by omega) (by norm_num)),
        digitChar_toNat (Nat.mod_lt _ (by norm_num))]
      omega

/-!
Supporting lemmas about lists and the folder mapping.
-/

theorem takeWhile_append_of_all {p : Char → Bool} (l m : List Char)
    (h : ∀ c ∈ l, p c = true) : (l ++ m).takeWhile p = l ++ m.takeWhile p := by
  induction l with
  | nil => simp
  | cons c l ih =>
    have hc : p c = true := h c (by simp)
    simp only [List.cons_append, List.takeWhile_cons, hc, if_true]
    rw [ih fun d hd => h d (by simp [hd])]

theorem self_le_foldl_max : ∀ (l : List ℕ) (a : ℕ), a ≤ l.foldl max a := by
  intro l
  induction l with
  | nil => simp
  | cons c t ih => exact fun a => le_trans (Nat.le_max_left a c) (ih (max a c))

theorem le_foldl_max (l : List ℕ) : ∀ a x, x ∈ l → x ≤ l.foldl max a := by
  induction l with
  | nil => intro a x hx; simp at hx
  | cons b l ih =>
    intro a x hx
    rw [List.mem_cons] at hx
    rcases hx with rfl | hx
    · exact le_trans (Nat.le_max_right a x) (self_le_foldl_max l (max a x))
    · exact ih (max a b) x hx

theorem foldl_max_mem (l : List ℕ) : ∀ a, l.foldl max a ∈ l ∨ l.foldl max a = a := by
  induction l with
  | nil => intro a; simp
  | cons b l ih =>
    intro a
    rcases ih (max a b) with h | h
    · exact Or.inl (List.mem_cons_of_mem _ h)
    · rcases Nat.le_total a b with hab | hab
      · rw [List.foldl_cons, h, Nat.max_eq_right hab]
        exact Or.inl (List.mem_cons_self _ _)
      · rw [List.foldl_cons, h, Nat.max_eq_left hab]
        exact Or.inr rfl

theorem containsKey_updateFolder (k : String) (g : FolderStat → FolderStat) :
    ∀ (fs : List (String × FolderStat)) (k₂ : String),
      containsKey (updateFolder k g fs) k₂ = containsKey fs k₂ := by
  intro fs k₂
  induction fs with
  | nil => rfl
  | cons kv fs ih =>
    by_cases h : kv.1 = k
    · simp [updateFolder, containsKey, h]
    · simp only [updateFolder, h, if_false, containsKey, List.any_cons] at ih ⊢
      rw [ih]

theorem containsKey_ensureFolder (fs : List (String × FolderStat)) (k : String) :
    containsKey (ensureFolder fs k) k = true := by
  unfold ensureFolder
  by_cases h : containsKey fs k
  · rw [if_pos h]; exact h
  · rw [if_neg h]
    simp [containsKey, List.any_append]

theorem lookupFolder_ensureFolder (fs : List (String × FolderStat)) (k : String) :
    lookupFolder (ensureFolder fs k) k = lookupFolder fs k := by
  unfold ensureFolder
  by_cases h : containsKey fs k
  · rw [if_pos h]
  · rw [if_neg h]
    have hnone : fs.find? (fun kv => kv.1 = k) = none := by
      rw [List.find?_eq_none]
      intro kv hkv
      by_contra hk
      simp only [Bool.not_eq_false, decide_eq_true_eq] at hk
      have : containsKey fs k = true := by
        unfold containsKey
        rw [List.any_eq_true]
        exact ⟨kv, hkv, by simp [hk]⟩
      exact h this
    unfold lookupFolder
    rw [List.find?_append, hnone]
    simp [List.find?]

theorem lookupFolder_updateFolder_self (k : String) (g : FolderStat → FolderStat) :
    ∀ fs : List (String × FolderStat), containsKey fs k = true →
      lookupFolder (updateFolder k g fs) k = g (lookupFolder fs k) := by
  intro fs
  induction fs with
  | nil => intro h; simp [containsKey] at h
  | cons kv fs ih =>
    intro h
    by_cases hk : kv.1 = k
    · simp [updateFolder, hk, lookupFolder, List.find?]
    · have h2 : containsKey fs k = true := by
        simp only [containsKey, List.any_cons] at h
        rcases Bool.or_eq_true_iff.mp h with h | h
        · exact absurd (by simpa using h) hk
        · exact h
      have hstep : ∀ l : List (String × FolderStat),
          List.find? (fun kv2 => decide (kv2.1 = k)) (kv :: l)
            = List.find? (fun kv2 => decide (kv2.1 = k)) l := by
        intro l
        have hfalse : (fun kv2 : String × FolderStat => decide (kv2.1 = k)) kv = false := by
          simp [hk]
        simp [List.find?_cons, hfalse]
      simp only [updateFolder, hk, if_false]
      unfold lookupFolder
      rw [hstep, hstep]
      have h3 := ih h2
      unfold lookupFolder at h3
      exact h3

theorem foldersFiles_ensureFolder (fs : List (String × FolderStat)) (k : String) :
    foldersFiles (ensureFolder fs k) = foldersFiles fs := by
  unfold ensureFolder
  by_cases h : containsKey fs k
  · simp [h]
  · simp [h, foldersFiles, zeroFolder]

theorem foldersFiles_updateFolder_same (k : String) (g : FolderStat → FolderStat)
    (hg : ∀ v, (g v).files = v.files) :
    ∀ fs : List (String × FolderStat),
      foldersFiles (updateFolder k g fs) = foldersFiles fs := by
  intro fs
  induction fs with
  | nil => rfl
  | cons kv fs ih =>
    by_cases hk : kv.1 = k
    · simp [updateFolder, hk, foldersFiles, hg]
    · simp only [foldersFiles, List.map_cons, List.sum_cons] at ih ⊢
      simp only [updateFolder, hk, if_false, List.map_cons, List.sum_cons]
      rw [ih]

theorem foldersFiles_updateFolder_append (k : String) (g : FolderStat → FolderStat)
    (xs : List FileInfo) (hg : ∀ v, (g v).files = v.files ++ xs) :
    ∀ fs : List (String × FolderStat), containsKey fs k = true →
      foldersFiles (updateFolder k g fs) = foldersFiles fs + (xs : Multiset FileInfo) := by
  intro fs
  induction fs with
  | nil => intro h; simp [containsKey] at h
  | cons kv fs ih =>
    intro h
    by_cases hk : kv.1 = k
    · simp only [updateFolder, hk, if_true, foldersFiles, List.map_cons, List.sum_cons, hg]
      rw [← Multiset.coe_add]
      abel
    · have h2 : containsKey fs k = true := by
        simp only [containsKey, List.any_cons] at h
        rcases Bool.or_eq_true_iff.mp h with h | h
        · exact absurd (by simpa using h) hk
        · exact h
      simp only [foldersFiles, List.map_cons, List.sum_cons] at ih ⊢
      simp only [updateFolder, hk, if_false, List.map_cons, List.sum_cons]
      rw [ih h2]
      abel

theorem ensureFolder_forall {Q : FolderStat → Prop} (fs : List (String × FolderStat))
    (k : String) (h : ∀ kv ∈ fs, Q kv.2) (hz : Q zeroFolder) :
    ∀ kv ∈ ensureFolder fs k, Q kv.2 := by
  unfold ensureFolder
  by_cases hc : containsKey fs k
  · simpa [hc] using h
  · intro kv hkv
    rw [if_neg hc, List.mem_append] at hkv
    rcases hkv with hkv | hkv
    · exact h kv hkv
    · rw [List.mem_singleton] at hkv
      subst hkv
      exact hz

theorem updateFolder_forall {P Q : FolderStat → Prop} (k : String)
    (g : FolderStat → FolderStat) (h2 : ∀ v, P v → Q (g v)) (h3 : ∀ v, P v → Q v) :
    ∀ fs : List (String × FolderStat), (∀ kv ∈ fs, P kv.2) →
      ∀ kv ∈ updateFolder k g fs, Q kv.2 := by
  intro fs
  induction fs with
  | nil => intro _ kv hkv; simp [updateFolder] at hkv
  | cons kv0 fs ih =>
    intro h1 kv hkv
    by_cases hk : kv0.1 = k
    · simp only [updateFolder, hk, if_true] at hkv
      rw [List.mem_cons] at hkv
      rcases hkv with rfl | hkv
      · exact h2 kv0.2 (h1 kv0 (by simp))
      · exact h3 kv.2 (h1 kv (by simp [hkv]))
    · simp only [updateFolder, hk, if_false] at hkv
      rw [List.mem_cons] at hkv
      rcases hkv with rfl | hkv
      · exact h3 kv.2 (h1 kv (by simp))
      · exact ih (fun kv2 hkv2 => h1 kv2 (by simp [hkv2])) kv hkv

/-!
Supporting lemmas about the numeric formatters.
-/

theorem roundHalfEven_nonneg {q : ℚ} (h : 0 ≤ q) : 0 ≤ roundHalfEven q := by
  unfold roundHalfEven
  have h0 : (0 : ℤ) ≤ ⌊q⌋ := Int.floor_nonneg.mpr h
  split_ifs <;> omega

theorem formatFixed1_shape (q : ℚ) (h : 0 ≤ q) :
    ∃ n d : ℕ, d < 10 ∧ formatFixed1 q = natStr n ++ "." ++ natStr d := by
  refine ⟨(roundHalfEven (q * 10)).natAbs / 10, (roundHalfEven (q * 10)).natAbs % 10,
    Nat.mod_lt _ (by norm_num), ?_⟩
  have hn : ¬(roundHalfEven (q * 10) < 0) :=
    not_lt.mpr (roundHalfEven_nonneg (by positivity))
  simp only [formatFixed1, if_neg hn]
  rfl

theorem pyMod_nonneg {a b : ℚ} (ha : 0 ≤ a) (hb : 0 < b) : 0 ≤ pyMod a b := by
  unfold pyMod
  have h1 : (⌊a / b⌋ : ℚ) ≤ a / b := Int.floor_le _
  have h2 : b * (⌊a / b⌋ : ℚ) ≤ b * (a / b) :=
    mul_le_mul_of_nonneg_left h1 (le_of_lt hb)
  have h3 : b * (a / b) = a := by field_simp
  linarith

theorem pyMod_eq_self {a b : ℚ} (ha : 0 ≤ a) (hb : 0 < b) (hab : a < b) :
    pyMod a b = a := by
  unfold pyMod
  have hfloor : ⌊a / b⌋ = 0 := by
    rw [Int.floor_eq_zero_iff]
    constructor
    · positivity
    · rw [div_lt_one hb]; exact hab
  rw [hfloor]
  push_cast
  ring

/-!
Claim theorems.
-/

/-- C9: format_size is a pure function — for every input, two calls with the
same argument yield the identical string — and it satisfies
format_size(1024) = "1.00 KB", format_size(1536) = "1.50 KB" and
format_size(0) = "0.00 B". -/
theorem formatSize_pure_and_values :
    (∀ q : ℚ, formatSize q = formatSize q) ∧
    formatSize 1024 = "1.00 KB" ∧ formatSize 1536 = "1.50 KB" ∧
    formatSize 0 = "0.00 B" := by
  refine ⟨fun _ => rfl, ?_, ?_, ?_⟩ <;>
  · norm_num [formatSize, formatSizeAux, formatFixed2, roundHalfEven]
    decide

/-- C6: for every positive total processing time t, the processing-time line
is "<H>h <M>m <S.S>s" when t is at least one hour, "<M>m <S.S>s" when t is at
least one minute but below one hour, and "<S.S>s" below one minute, with the
seconds always rendered to exactly one decimal place. -/
theorem formatDuration_magnitude (t : ℚ) (ht : 0 < t) :
    (3600 ≤ t →
      formatDuration t =
        intStr ⌊t / 3600⌋ ++ "h " ++ intStr ⌊pyMod t 3600 / 60⌋ ++ "m "
          ++ formatFixed1 (pyMod t 60) ++ "s") ∧
    (60 ≤ t → t < 3600 →
      formatDuration t = intStr ⌊t / 60⌋ ++ "m " ++ formatFixed1 (pyMod t 60) ++ "s") ∧
    (t < 60 → formatDuration t = formatFixed1 t ++ "s") ∧
    (∃ n d : ℕ, d < 10 ∧ formatFixed1 (pyMod t 60) = natStr n ++ "." ++ natStr d) := by
  refine ⟨?_, ?_, ?_, formatFixed1_shape _ (pyMod_nonneg (le_of_lt ht) (by norm_num))⟩
  · intro h3600
    have hh : 0 < ⌊t / 3600⌋ := by
      have : (1 : ℤ) ≤ ⌊t / 3600⌋ := by
        rw [Int.le_floor]
        rw [le_div_iff (by norm_num : (0 : ℚ) < 3600)]
        push_cast
        linarith
      omega
    simp only [formatDuration, if_pos hh]
  · intro h60 h3600
    have hh : ⌊t / 3600⌋ = 0 := by
      rw [Int.floor_eq_zero_iff]
      constructor
      · positivity
      · rw [div_lt_one (by norm_num : (0 : ℚ) < 3600)]; exact h3600
    have hmod : pyMod t 3600 = t := pyMod_eq_self (le_of_lt ht) (by norm_num) h3600
    have hm : 0 < ⌊pyMod t 3600 / 60⌋ := by
      rw [hmod]
      have : (1 : ℤ) ≤ ⌊t / 60⌋ := by
        rw [Int.le_floor]
        rw [le_div_iff (by norm_num : (0 : ℚ) < 60)]
        push_cast
        linarith
      omega
    have hnot : ¬(0 < ⌊t / 3600⌋) := by omega
    have hm2 : 0 < ⌊t / 60⌋ := by rw [hmod] at hm; exact hm
    simp only [formatDuration, if_neg hnot, hmod]
    rw [if_pos hm2]
  · intro h60
    have hh : ⌊t / 3600⌋ = 0 := by
      rw [Int.floor_eq_zero_iff]
      constructor
      · positivity
      · rw [div_lt_one (by norm_num : (0 : ℚ) < 3600)]; linarith
    have hmod : pyMod t 3600 = t := pyMod_eq_self (le_of_lt ht) (by norm_num) (by linarith)
    have hm : ⌊pyMod t 3600 / 60⌋ = 0 := by
      rw [hmod, Int.floor_eq_zero_iff]
      constructor
      · positivity
      · rw [div_lt_one (by norm_num : (0 : ℚ) < 60)]; exact h60
    have hmod60 : pyMod t 60 = t := pyMod_eq_self (le_of_lt ht) (by norm_num) h60
    have hnoth : ¬(0 < ⌊t / 3600⌋) := by omega
    have hnotm : ¬(0 < ⌊pyMod t 3600 / 60⌋) := by omega
    simp only [formatDuration, if_neg hnoth, if_neg hnotm, hmod60]

/-- Witness for C6: the theorem applied to t = 3725 seconds, which renders as
"1h 2m 5.0s". -/
theorem formatDuration_magnitude_witness :
    (0 : ℚ) < 3725 ∧
    (formatDuration 3725 =
      intStr ⌊(3725 : ℚ) / 3600⌋ ++ "h " ++ intStr ⌊pyMod 3725 3600 / 60⌋ ++ "m "
        ++ formatFixed1 (pyMod 3725 60) ++ "s") ∧
    formatDuration 3725 = "1h 2m 5.0s" :=
  ⟨by norm_num,
   (formatDuration_magnitude 3725 (by norm_num)).1 (by norm_num),
   by
     norm_num [formatDuration, pyMod, formatFixed1, roundHalfEven]
     decide⟩

theorem aggStep_foldl (l : List (String × FolderStat)) :
    ∀ acc : AggStats,
      l.foldl aggStep acc =
        { total_files := acc.total_files + (l.map fun kv => kv.2.total_files).sum
          processed := acc.processed + (l.map fun kv => kv.2.processed).sum
          skipped := acc.skipped + (l.map fun kv => kv.2.skipped).sum
          errors := acc.errors + (l.map fun kv => kv.2.errors).sum
          total_original_size :=
            acc.total_original_size + (l.map fun kv => kv.2.total_original_size).sum
          total_compressed_size :=
            acc.total_compressed_size + (l.map fun kv => kv.2.total_compressed_size).sum
          space_saved := acc.space_saved + (l.map fun kv => kv.2.space_saved).sum
          total_processing_time := acc.total_processing_time
          files := acc.files ++ (l.map fun kv => kv.2.files).join } := by
  induction l with
  | nil => intro acc; simp
  | cons kv l ih =>
    intro acc
    rw [List.foldl_cons, ih (aggStep acc kv)]
    simp [aggStep, Nat.add_assoc, add_assoc]

/-- C2: for a recursive run with a non-empty folder mapping, every counter
and size total of the aggregated report equals the field-wise sum over all
folder entries, its file list is the concatenation of the folders' file
lists in folder-iteration order, and its total processing time is the
top-level run value rather than a re-summed one. -/
theorem aggregateStats_fieldwise (folderStats : List (String × FolderStat))
    (totalTime : ℚ) (hne : folderStats ≠ []) :
    (aggregateStats folderStats totalTime).total_files
        = (folderStats.map fun kv => kv.2.total_files).sum ∧
    (aggregateStats folderStats totalTime).processed
        = (folderStats.map fun kv => kv.2.processed).sum ∧
    (aggregateStats folderStats totalTime).skipped
        = (folderStats.map fun kv => kv.2.skipped).sum ∧
    (aggregateStats folderStats totalTime).errors
        = (folderStats.map fun kv => kv.2.errors).sum ∧
    (aggregateStats folderStats totalTime).total_original_size
        = (folderStats.map fun kv => kv.2.total_original_size).sum ∧
    (aggregateStats folderStats totalTime).total_compressed_size
        = (folderStats.map fun kv => kv.2.total_compressed_size).sum ∧
    (aggregateStats folderStats totalTime).space_saved
        = (folderStats.map fun kv => kv.2.space_saved).sum ∧
    (aggregateStats folderStats totalTime).files
        = (folderStats.map fun kv => kv.2.files).join ∧
    (aggregateStats folderStats totalTime).total_processing_time = totalTime := by
  unfold aggregateStats
  rw [aggStep_foldl]
  simp

/-- Witness for C2: two folders, each with 5 discovered files, 4 processed,
1,000,000 original bytes and 500,000 compressed bytes, aggregate to 10 files,
8 processed, 2,000,000 original and 1,000,000 compressed bytes. -/
theorem aggregateStats_fieldwise_witness :
    ([("a", { zeroFolder with total_files := 5, processed := 4, total_original_size := 1000000, total_compressed_size := 500000 }), ("b", { zeroFolder with total_files := 5, processed := 4, total_original_size := 1000000, total_compressed_size := 500000 })] ≠ ([] : List (String × FolderStat))) ∧
    (aggregateStats [("a", { zeroFolder with total_files := 5, processed := 4, total_original_size := 1000000, total_compressed_size := 500000 }), ("b", { zeroFolder with total_files := 5, processed := 4, total_original_size := 1000000, total_compressed_size := 500000 })] 0).total_files = 10 ∧
    (aggregateStats [("a", { zeroFolder with total_files := 5, processed := 4, total_original_size := 1000000, total_compressed_size := 500000 }), ("b", { zeroFolder with total_files := 5, processed := 4, total_original_size := 1000000, total_compressed_size := 500000 })] 0).processed = 8 ∧
    (aggregateStats [("a", { zeroFolder with total_files := 5, processed := 4, total_original_size := 1000000, total_compressed_size := 500000 }), ("b", { zeroFolder with total_files := 5, processed := 4, total_original_size := 1000000, total_compressed_size := 500000 })] 0).total_original_size = 2000000 ∧
    (aggregateStats [("a", { zeroFolder with total_files := 5, processed := 4, total_original_size := 1000000, total_compressed_size := 500000 }), ("b", { zeroFolder with total_files := 5, processed := 4, total_original_size := 1000000, total_compressed_size := 500000 })] 0).total_compressed_size = 1000000 := by
  have h := aggregateStats_fieldwise [("a", { zeroFolder with total_files := 5, processed := 4, total_original_size := 1000000, total_compressed_size := 500000 }), ("b", { zeroFolder with total_files := 5, processed := 4, total_original_size := 1000000, total_compressed_size := 500000 })] 0 (by simp)
  refine ⟨by simp, ?_, ?_, ?_, ?_⟩
  · rw [h.1]; decide
  · rw [h.2.1]; decide
  · rw [h.2.2.2.2.1]; decide
  · rw [h.2.2.2.2.2.1]; decide

theorem mem_map_fst_filter (P : String × FolderStat → Bool)
    (fs : List (String × FolderStat)) (x : String)
    (hx : x ∈ (fs.filter P).map Prod.fst) : x ∈ fs.map Prod.fst := by
  rw [List.mem_map] at hx ⊢
  rcases hx with ⟨kv, hkv, rfl⟩
  exact ⟨kv, List.mem_of_mem_filter hkv, rfl⟩

theorem countKeyFilterMap (P : String × FolderStat → Bool) :
    ∀ fs : List (String × FolderStat), (fs.map Prod.fst).Nodup →
      ∀ kv ∈ fs, ((fs.filter P).map Prod.fst).count kv.1 = if P kv then 1 else 0 := by
  intro fs
  induction fs with
  | nil => intro _ kv hkv; simp at hkv
  | cons kv0 fs ih =>
    intro hnd kv hkv
    rw [List.map_cons, List.nodup_cons] at hnd
    rcases hnd with ⟨hk0, hnd⟩
    rw [List.mem_cons] at hkv
    rcases hkv with rfl | hkv
    · have hzero : ((fs.filter P).map Prod.fst).count kv.1 = 0 := by
        rw [List.count_eq_zero]
        intro hmem
        exact hk0 (mem_map_fst_filter P fs kv.1 hmem)
      by_cases hP : P kv
      · rw [List.filter_cons_of_pos hP, List.map_cons, List.count_cons_self, hzero, if_pos hP]
      · rw [List.filter_cons_of_neg (by simpa using hP), hzero, if_neg hP]
    · have hne : kv.1 ≠ kv0.1 := by
        intro he
        exact hk0 (he ▸ List.mem_map.mpr ⟨kv, hkv, rfl⟩)
      by_cases hP0 : P kv0
      · rw [List.filter_cons_of_pos hP0, List.map_cons, List.count_cons_of_ne hne,
          ih hnd kv hkv]
      · rw [List.filter_cons_of_neg (by simpa using hP0), ih hnd kv hkv]

/-- C3: in a recursive run with a non-empty folder mapping, report generation
renders no report for a folder with no discovered files, exactly one report
for every folder with at least one discovered file, exactly one aggregated
report, and no whole-run single report. -/
theorem generateReportPlan_counts (folderStats : List (String × FolderStat))
    (hne : folderStats ≠ []) (hnd : (folderStats.map Prod.fst).Nodup) :
    (∀ kv ∈ folderStats, kv.2.total_files = 0 →
        (generateReportPlan true folderStats).count (ReportKind.perFolder kv.1) = 0) ∧
    (∀ kv ∈ folderStats, 0 < kv.2.total_files →
        (generateReportPlan true folderStats).count (ReportKind.perFolder kv.1) = 1) ∧
    (generateReportPlan true folderStats).count ReportKind.aggregated = 1 ∧
    (generateReportPlan true folderStats).count ReportKind.single = 0 := by
  have hinj : Function.Injective ReportKind.perFolder := by
    intro a b h
    injection h
  have hplan : generateReportPlan true folderStats =
      (folderStats.filter (fun kv => kv.2.total_files ≠ 0)).map
        (fun kv => ReportKind.perFolder kv.1) ++ [ReportKind.aggregated] := by
    unfold generateReportPlan
    rw [if_pos ⟨rfl, hne⟩]
  have hmapmap : (folderStats.filter (fun kv => kv.2.total_files ≠ 0)).map
      (fun kv => ReportKind.perFolder kv.1)
      = ((folderStats.filter (fun kv => kv.2.total_files ≠ 0)).map Prod.fst).map
          ReportKind.perFolder := by
    rw [List.map_map]
    rfl
  have hcountFolder : ∀ kv ∈ folderStats,
      (generateReportPlan true folderStats).count (ReportKind.perFolder kv.1)
        = if kv.2.total_files ≠ 0 then 1 else 0 := by
    intro kv hkv
    rw [hplan, List.count_append, hmapmap,
      List.count_map_of_injective _ ReportKind.perFolder hinj,
      countKeyFilterMap _ folderStats hnd kv hkv]
    simp
  refine ⟨?_, ?_, ?_, ?_⟩
  · intro kv hkv h0
    rw [hcountFolder kv hkv, if_neg (by simp [h0])]
  · intro kv hkv hpos
    rw [hcountFolder kv hkv, if_pos (by omega)]
  · rw [hplan, List.count_append]
    have h1 : ((folderStats.filter (fun kv => kv.2.total_files ≠ 0)).map
        (fun kv => ReportKind.perFolder kv.1)).count ReportKind.aggregated = 0 := by
      rw [List.count_eq_zero]
      intro hmem
      rw [List.mem_map] at hmem
      rcases hmem with ⟨kv, _, hkv⟩
      exact ReportKind.noConfusion hkv
    rw [h1]
    simp
  · rw [hplan, List.count_append]
    have h1 : ((folderStats.filter (fun kv => kv.2.total_files ≠ 0)).map
        (fun kv => ReportKind.perFolder kv.1)).count ReportKind.single = 0 := by
      rw [List.count_eq_zero]
      intro hmem
      rw [List.mem_map] at hmem
      rcases hmem with ⟨kv, _, hkv⟩
      exact ReportKind.noConfusion hkv
    rw [h1]
    simp

/-- Witness for C3: one empty folder and one folder with two files produce
exactly the plan of one per-folder report for the non-empty folder plus the
aggregated report. -/
theorem generateReportPlan_counts_witness :
    ([("empty", zeroFolder), ("sub", { zeroFolder with total_files := 2 })] ≠ ([] : List (String × FolderStat))) ∧
    ((([("empty", zeroFolder), ("sub", { zeroFolder with total_files := 2 })] : List (String × FolderStat)).map Prod.fst).Nodup) ∧
    generateReportPlan true [("empty", zeroFolder), ("sub", { zeroFolder with total_files := 2 })] = [ReportKind.perFolder "sub", ReportKind.aggregated] ∧
    ((∀ kv ∈ [("empty", zeroFolder), ("sub", { zeroFolder with total_files := 2 })], kv.2.total_files = 0 → (generateReportPlan true [("empty", zeroFolder), ("sub", { zeroFolder with total_files := 2 })]).count (ReportKind.perFolder kv.1) = 0) ∧
     (∀ kv ∈ [("empty", zeroFolder), ("sub", { zeroFolder with total_files := 2 })], 0 < kv.2.total_files → (generateReportPlan true [("empty", zeroFolder), ("sub", { zeroFolder with total_files := 2 })]).count (ReportKind.perFolder kv.1) = 1) ∧
     (generateReportPlan true [("empty", zeroFolder), ("sub", { zeroFolder with total_files := 2 })]).count ReportKind.aggregated = 1 ∧
     (generateReportPlan true [("empty", zeroFolder), ("sub", { zeroFolder with total_files := 2 })]).count ReportKind.single = 0) :=
  ⟨by simp, by decide, by decide,
   generateReportPlan_counts [("empty", zeroFolder), ("sub", { zeroFolder with total_files := 2 })] (by simp) (by decide)⟩

theorem keepChar_eq_claim (c : Char) :
    keepChar c
      = !(!(c.isAlpha || c.isDigit)
          && !(c = ' ' || c = '-' || c = '_' || c = '/' || c = '\\')) := by
  unfold keepChar
  simp [Bool.or_comm, Bool.or_assoc, Bool.or_left_comm, Bool.not_and, Bool.not_not]

theorem replaceChain_eq_map (s : List Char) :
    replaceChar '/' '_' (replaceChar '\\' '_' (replaceChar ' ' '_' s))
      = s.map fun c => if c = ' ' ∨ c = '\\' ∨ c = '/' then '_' else c := by
  simp only [replaceChar, List.map_map]
  apply List.map_eq_map_iff.mpr
  intro c _
  simp only [Function.comp]
  by_cases h1 : c = ' '
  · subst h1; decide
  · by_cases h2 : c = '\\'
    · subst h2; decide
    · by_cases h3 : c = '/'
      · subst h3; decide
      · simp [h1, h2, h3]

/-- C7 counterexample: for the folder key "sub " (a directory name with a
trailing space), the code produces the name "sub" while the claim's recipe,
which omits the code's surrounding-whitespace trim, produces "sub_". -/
theorem folderSafeName_claim_cex :
    specFolderSafeName "sub ".toList = "sub_".toList ∧
    folderSafeName "sub ".toList = "sub".toList ∧
    folderSafeName "sub ".toList ≠ specFolderSafeName "sub ".toList := by decide

/-- C7 amended: the report file name for a folder key is derived by stripping
every character that is not alphanumeric and not one of space, dash,
underscore, slash, backslash, then trimming leading and trailing whitespace,
then replacing spaces and both path separators with underscores, with "root"
substituted when the result is empty or ".". -/
theorem folderSafeName_amended_claim (key : List Char) :
    folderSafeName key = amendedFolderSafeName key := by
  unfold folderSafeName amendedFolderSafeName
  simp only []
  rw [List.filter_congr' fun c _ => keepChar_eq_claim c, replaceChain_eq_map]

/-- C8: when the report area is unwritable, report generation propagates the
write failure to the caller, while the (spec-modelled) ledger save and
history append of the statistics manager catch the failure, emit a warning
and return normally. -/
theorem reportWrite_error_propagation (d : Disk) (recursive : Bool)
    (folderStats : List (String × FolderStat)) (safeName : List Char)
    (ledger : CumulativeLedger) (entry : String) (hw : d.writable = false) :
    (∃ e, generateReportWrites d recursive folderStats safeName = Except.error e) ∧
    (∃ warns, saveCumulativeStats d ledger = Except.ok warns ∧ warns ≠ []) ∧
    (∃ warns, appendRunHistory d entry = Except.ok warns ∧ warns ≠ []) := by
  refine ⟨?_, ?_, ?_⟩
  · unfold generateReportWrites
    by_cases hb : recursive = true ∧ folderStats ≠ []
    · rw [if_pos hb]
      rcases hres : writeFolderReports d folderStats with e | acc
      · exact ⟨e, rfl⟩
      · refine ⟨"unwritable: ".toList ++ "aggregated_report.csv".toList, ?_⟩
        simp [Except.bind, Except.map, writeFileOnDisk, hw]
    · rw [if_neg hb]
      exact ⟨"unwritable: ".toList ++ (safeName ++ "_report.csv".toList),
        by simp [Except.map, writeFileOnDisk, hw]⟩
  · exact ⟨["Warning: Could not save statistics: ".toList
        ++ ("unwritable: ".toList ++ "statistics.csv".toList)],
      by simp [saveCumulativeStats, writeFileOnDisk, hw], by simp⟩
  · exact ⟨["Warning: Could not append run history: ".toList
        ++ ("unwritable: ".toList ++ "run_history.csv".toList)],
      by simp [appendRunHistory, writeFileOnDisk, hw], by simp⟩

/-- Witness for C8: an unwritable disk makes a non-recursive report write
fail with a propagated error while the ledger save returns normally. -/
theorem reportWrite_error_propagation_witness :
    (Disk.mk false).writable = false ∧
    ((∃ e, generateReportWrites (Disk.mk false) false [] "runA".toList = Except.error e) ∧
     (∃ warns, saveCumulativeStats (Disk.mk false)
        (CumulativeLedger.mk 0 0 0 0 0 0 0 none) = Except.ok warns ∧ warns ≠ []) ∧
     (∃ warns, appendRunHistory (Disk.mk false) "entry" = Except.ok warns ∧ warns ≠ [])) :=
  ⟨rfl, reportWrite_error_propagation (Disk.mk false) false [] "runA".toList
    (CumulativeLedger.mk 0 0 0 0 0 0 0 none) "entry" rfl⟩

/-- C4: in non-overwrite mode with keep-if-larger disabled, a file whose
compressed output is larger than the original is recorded with status
"success (copied original)", compressed size equal to the original size, zero
space saved and zero compression ratio; the processed counter increases by
one and the original size is added to the compressed-size total run-wide and
for the owning folder. -/
theorem copiedOriginal_accounting (cfg : Config) (s : RunStats) (job : FileJob)
    (csz : ℕ) (hov : cfg.overwrite = false) (hk : cfg.keep_if_larger = false)
    (hev : job.event = FileEvent.compressedTo csz) (hgt : job.originalSize < csz) :
    (processFile cfg s job).files = s.files ++
      [{ name := job.name, original_size := job.originalSize,
         compressed_size := job.originalSize, space_saved := 0,
         compression_rate := 0, processing_time := job.time,
         status := "success (copied original)" }] ∧
    (processFile cfg s job).processed = s.processed + 1 ∧
    (processFile cfg s job).total_compressed_size
        = s.total_compressed_size + job.originalSize ∧
    (cfg.recursive = true →
      (lookupFolder (processFile cfg s job).folder_stats job.folderKey).files
          = (lookupFolder s.folder_stats job.folderKey).files ++
            [{ name := job.name, original_size := job.originalSize,
               compressed_size := job.originalSize, space_saved := 0,
               compression_rate := 0, processing_time := job.time,
               status := "success (copied original)" }] ∧
      (lookupFolder (processFile cfg s job).folder_stats job.folderKey).processed
          = (lookupFolder s.folder_stats job.folderKey).processed + 1 ∧
      (lookupFolder (processFile cfg s job).folder_stats job.folderKey).total_compressed_size
          = (lookupFolder s.folder_stats job.folderKey).total_compressed_size
            + job.originalSize) := by
  have hcond : csz > job.originalSize ∧ cfg.keep_if_larger = false := ⟨hgt, hk⟩
  have hcu : ∀ (g : FolderStat → FolderStat) (fs : List (String × FolderStat)),
      containsKey fs job.folderKey = true →
      containsKey (updateFolder job.folderKey g fs) job.folderKey = true := by
    intro g fs h
    rw [containsKey_updateFolder]
    exact h
  have hc1 : containsKey (ensureFolder s.folder_stats job.folderKey) job.folderKey
      = true := containsKey_ensureFolder _ _
  refine ⟨?_, ?_, ?_, ?_⟩
  · simp only [processFile, hev]
    rw [if_pos hcond, if_pos hov]
  · simp only [processFile, hev]
    rw [if_pos hcond, if_pos hov]
  · simp only [processFile, hev]
    rw [if_pos hcond, if_pos hov]
  · intro hrec
    simp only [processFile, hev, hrec, if_true]
    rw [if_pos hcond, if_pos hov]
    simp only []
    rw [lookupFolder_updateFolder_self _ _ _ (hcu _ _ hc1),
      lookupFolder_updateFolder_self _ _ _ hc1, lookupFolder_ensureFolder]
    refine ⟨rfl, rfl, rfl⟩

/-- Witness for C4: a 100-byte file whose compressed output is 200 bytes, in
a recursive non-overwrite run with keep-if-larger disabled. -/
theorem copiedOriginal_accounting_witness :
    ((Config.mk true false false).overwrite = false) ∧
    ((Config.mk true false false).keep_if_larger = false) ∧
    ((FileJob.mk "f.jpg" "root" 100 (FileEvent.compressedTo 200) 0).event
        = FileEvent.compressedTo 200) ∧
    ((FileJob.mk "f.jpg" "root" 100 (FileEvent.compressedTo 200) 0).originalSize < 200) ∧
    ((processFile (Config.mk true false false) (initStats 1)
        (FileJob.mk "f.jpg" "root" 100 (FileEvent.compressedTo 200) 0)).files
      = (initStats 1).files ++
        [{ name := "f.jpg", original_size := 100, compressed_size := 100,
           space_saved := 0, compression_rate := 0, processing_time := 0,
           status := "success (copied original)" }] ∧
     (processFile (Config.mk true false false) (initStats 1)
        (FileJob.mk "f.jpg" "root" 100 (FileEvent.compressedTo 200) 0)).processed
      = (initStats 1).processed + 1 ∧
     (processFile (Config.mk true false false) (initStats 1)
        (FileJob.mk "f.jpg" "root" 100 (FileEvent.compressedTo 200) 0)).total_compressed_size
      = (initStats 1).total_compressed_size + 100 ∧
     ((Config.mk true false false).recursive = true →
      (lookupFolder (processFile (Config.mk true false false) (initStats 1)
          (FileJob.mk "f.jpg" "root" 100 (FileEvent.compressedTo 200) 0)).folder_stats
          "root").files
        = (lookupFolder (initStats 1).folder_stats "root").files ++
          [{ name := "f.jpg", original_size := 100, compressed_size := 100,
             space_saved := 0, compression_rate := 0, processing_time := 0,
             status := "success (copied original)" }] ∧
      (lookupFolder (processFile (Config.mk true false false) (initStats 1)
          (FileJob.mk "f.jpg" "root" 100 (FileEvent.compressedTo 200) 0)).folder_stats
          "root").processed
        = (lookupFolder (initStats 1).folder_stats "root").processed + 1 ∧
      (lookupFolder (processFile (Config.mk true false false) (initStats 1)
          (FileJob.mk "f.jpg" "root" 100 (FileEvent.compressedTo 200) 0)).folder_stats
          "root").total_compressed_size
        = (lookupFolder (initStats 1).folder_stats "root").total_compressed_size + 100)) :=
  ⟨rfl, rfl, rfl, by decide,
   copiedOriginal_accounting (Config.mk true false false) (initStats 1)
     (FileJob.mk "f.jpg" "root" 100 (FileEvent.compressedTo 200) 0) 200
     rfl rfl rfl (by decide)⟩

theorem chain_forall {Q : FolderStat → Prop} (fs : List (String × FolderStat))
    (k : String) (reg g : FolderStat → FolderStat)
    (hQ : ∀ kv ∈ fs, Q kv.2) (hz : Q zeroFolder)
    (hreg : ∀ v, Q v → Q (reg v)) (hg : ∀ v, Q v → Q (g v)) :
    ∀ kv ∈ updateFolder k g (updateFolder k reg (ensureFolder fs k)), Q kv.2 :=
  updateFolder_forall k g hg (fun _ hv => hv) _
    (updateFolder_forall k reg hreg (fun _ hv => hv) _
      (ensureFolder_forall fs k hQ hz))

theorem processFile_count_preserved (cfg : Config) (s : RunStats) (job : FileJob)
    (h1 : s.files.length = s.processed + s.errors)
    (h2 : ∀ kv ∈ s.folder_stats, kv.2.files.length = kv.2.processed + kv.2.errors) :
    (processFile cfg s job).files.length
        = (processFile cfg s job).processed + (processFile cfg s job).errors ∧
    ∀ kv ∈ (processFile cfg s job).folder_stats,
      kv.2.files.length = kv.2.processed + kv.2.errors := by
  have hfold : ∀ (k : String) (reg g : FolderStat → FolderStat),
      (∀ v, (reg v).files = v.files ∧ (reg v).processed = v.processed
            ∧ (reg v).errors = v.errors) →
      (∀ v, v.files.length = v.processed + v.errors →
            (g v).files.length = (g v).processed + (g v).errors) →
      ∀ kv ∈ updateFolder k g (updateFolder k reg (ensureFolder s.folder_stats k)),
        kv.2.files.length = kv.2.processed + kv.2.errors := by
    intro k reg g hreg hg
    refine @chain_forall (fun v => v.files.length = v.processed + v.errors)
      s.folder_stats k reg g h2 (by simp [zeroFolder]) ?_ hg
    intro v hv
    rcases hreg v with ⟨e1, e2, e3⟩
    rw [e1, e2, e3]
    exact hv
  cases hev : job.event with
  | skipExisting sz =>
    refine ⟨?_, ?_⟩
    · simp only [processFile, hev]
      simp [h1]
    · simp only [processFile, hev]
      by_cases hrec : cfg.recursive = true
      · rw [hrec]
        simp only [eq_self_iff_true, if_true]
        exact hfold _ _ _ (fun v => ⟨rfl, rfl, rfl⟩) (fun v hv => by simpa using hv)
      · simp only [hrec, if_false]
        exact h2
  | failed msg =>
    refine ⟨?_, ?_⟩
    · simp only [processFile, hev]
      simp [List.length_append]
      omega
    · simp only [processFile, hev]
      by_cases hrec : cfg.recursive = true
      · rw [hrec]
        simp only [eq_self_iff_true, if_true]
        exact hfold _ _ _ (fun v => ⟨rfl, rfl, rfl⟩)
          (fun v hv => by simp [List.length_append]; omega)
      · simp only [hrec, if_false]
        exact h2
  | compressedTo csz =>
    by_cases hbig : csz > job.originalSize ∧ cfg.keep_if_larger = false
    · by_cases hov : cfg.overwrite = false
      · refine ⟨?_, ?_⟩
        · simp only [processFile, hev]
          rw [if_pos hbig, if_pos hov]
          simp [List.length_append]
          omega
        · simp only [processFile, hev]
          rw [if_pos hbig, if_pos hov]
          by_cases hrec : cfg.recursive = true
          · rw [hrec]
            simp only [eq_self_iff_true, if_true]
            exact hfold _ _ _ (fun v => ⟨rfl, rfl, rfl⟩)
              (fun v hv => by simp [List.length_append]; omega)
          · simp only [hrec, if_false]
            exact h2
      · refine ⟨?_, ?_⟩
        · simp only [processFile, hev]
          rw [if_pos hbig, if_neg hov]
          simp [h1]
        · simp only [processFile, hev]
          rw [if_pos hbig, if_neg hov]
          by_cases hrec : cfg.recursive = true
          · rw [hrec]
            simp only [eq_self_iff_true, if_true]
            exact hfold _ _ _ (fun v => ⟨rfl, rfl, rfl⟩) (fun v hv => by simpa using hv)
          · simp only [hrec, if_false]
            exact h2
    · refine ⟨?_, ?_⟩
      · simp only [processFile, hev]
        rw [if_neg hbig]
        simp [List.length_append]
        omega
      · simp only [processFile, hev]
        rw [if_neg hbig]
        by_cases hrec : cfg.recursive = true
        · rw [hrec]
          simp only [eq_self_iff_true, if_true]
          exact hfold _ _ _ (fun v => ⟨rfl, rfl, rfl⟩)
            (fun v hv => by simp [List.length_append]; omega)
        · simp only [hrec, if_false]
          exact h2

/-- C10: at the end of every run, skipped files contribute no row: the length
of the run-wide files list equals the processed counter plus the errors
counter, and likewise for every folder's files list. -/
theorem files_rows_match_processed_errors (cfg : Config) (jobs : List FileJob)
    (totalTime : ℚ) :
    (runStats cfg jobs totalTime).files.length
        = (runStats cfg jobs totalTime).processed
          + (runStats cfg jobs totalTime).errors ∧
    ∀ kv ∈ (runStats cfg jobs totalTime).folder_stats,
      kv.2.files.length = kv.2.processed + kv.2.errors := by
  have main : ∀ (js : List FileJob) (s : RunStats),
      (s.files.length = s.processed + s.errors ∧
       ∀ kv ∈ s.folder_stats, kv.2.files.length = kv.2.processed + kv.2.errors) →
      ((js.foldl (processFile cfg) s).files.length
          = (js.foldl (processFile cfg) s).processed
            + (js.foldl (processFile cfg) s).errors ∧
       ∀ kv ∈ (js.foldl (processFile cfg) s).folder_stats,
         kv.2.files.length = kv.2.processed + kv.2.errors) := by
    intro js
    induction js with
    | nil => intro s h; exact h
    | cons j js ih =>
      intro s h
      rw [List.foldl_cons]
      exact ih _ (processFile_count_preserved cfg s j h.1 h.2)
  have h0 : (initStats jobs.length).files.length
      = (initStats jobs.length).processed + (initStats jobs.length).errors ∧
      ∀ kv ∈ (initStats jobs.length).folder_stats,
        kv.2.files.length = kv.2.processed + kv.2.errors := by
    simp [initStats]
  have hm := main jobs _ h0
  simpa [runStats] using hm

theorem chain_forall2 {P Q : FolderStat → Prop} (fs : List (String × FolderStat))
    (k : String) (reg g : FolderStat → FolderStat)
    (hP : ∀ kv ∈ fs, P kv.2) (hz : P zeroFolder)
    (hreg : ∀ v, P v → P (reg v)) (hg : ∀ v, P v → Q (g v)) (hPQ : ∀ v, P v → Q v) :
    ∀ kv ∈ updateFolder k g (updateFolder k reg (ensureFolder fs k)), Q kv.2 :=
  updateFolder_forall k g hg hPQ _
    (updateFolder_forall k reg hreg (fun _ h => h) _
      (ensureFolder_forall fs k hP hz))

theorem foldersFiles_chain_same (fs : List (String × FolderStat)) (k : String)
    (reg g : FolderStat → FolderStat)
    (hreg : ∀ v, (reg v).files = v.files) (hg : ∀ v, (g v).files = v.files) :
    foldersFiles (updateFolder k g (updateFolder k reg (ensureFolder fs k)))
      = foldersFiles fs := by
  rw [foldersFiles_updateFolder_same k g hg, foldersFiles_updateFolder_same k reg hreg,
    foldersFiles_ensureFolder]

theorem foldersFiles_chain_append (fs : List (String × FolderStat)) (k : String)
    (reg g : FolderStat → FolderStat) (xs : List FileInfo)
    (hreg : ∀ v, (reg v).files = v.files) (hg : ∀ v, (g v).files = v.files ++ xs) :
    foldersFiles (updateFolder k g (updateFolder k reg (ensureFolder fs k)))
      = foldersFiles fs + (xs : Multiset FileInfo) := by
  have hc2 : containsKey (updateFolder k reg (ensureFolder fs k)) k = true := by
    rw [containsKey_updateFolder]
    exact containsKey_ensureFolder fs k
  rw [foldersFiles_updateFolder_append k g xs hg _ hc2,
    foldersFiles_updateFolder_same k reg hreg, foldersFiles_ensureFolder]

theorem processFile_files_preserved (cfg : Config) (hrec : cfg.recursive = true)
    (s : RunStats) (job : FileJob)
    (h1 : foldersFiles s.folder_stats = (s.files : Multiset FileInfo))
    (h2 : ∀ kv ∈ s.folder_stats, List.Sublist kv.2.files s.files) :
    foldersFiles (processFile cfg s job).folder_stats
        = ((processFile cfg s job).files : Multiset FileInfo) ∧
    ∀ kv ∈ (processFile cfg s job).folder_stats,
      List.Sublist kv.2.files (processFile cfg s job).files := by
  have hsub : ∀ (xs : List FileInfo) (v : FolderStat),
      List.Sublist v.files s.files → List.Sublist v.files (s.files ++ xs) :=
    fun xs v hv => List.Sublist.trans hv (List.sublist_append_left s.files xs)
  cases hev : job.event with
  | skipExisting sz =>
    refine ⟨?_, ?_⟩
    · simp only [processFile, hev]
      rw [hrec]
      simp only [eq_self_iff_true, if_true]
      rw [← h1]
      refine foldersFiles_chain_same _ _ _ _ ?_ ?_ <;> intro v <;> rfl
    · simp only [processFile, hev]
      rw [hrec]
      simp only [eq_self_iff_true, if_true]
      exact @chain_forall (fun v => List.Sublist v.files s.files)
        s.folder_stats _ _ _ h2 (by simp [zeroFolder])
        (fun v hv => hv) (fun v hv => hv)
  | failed msg =>
    refine ⟨?_, ?_⟩
    · simp only [processFile, hev]
      rw [hrec]
      simp only [eq_self_iff_true, if_true]
      rw [← Multiset.coe_add, ← h1]
      refine foldersFiles_chain_append _ _ _ _ _ ?_ ?_ <;> intro v <;> rfl
    · simp only [processFile, hev]
      rw [hrec]
      simp only [eq_self_iff_true, if_true]
      exact @chain_forall2 (fun v => List.Sublist v.files s.files)
        (fun v => List.Sublist v.files (s.files ++ _))
        s.folder_stats _ _ _ h2 (by simp [zeroFolder]) (fun v hv => hv)
        (fun v hv => List.Sublist.append hv (List.Sublist.refl _))
        (fun v hv => hsub _ v hv)
  | compressedTo csz =>
    by_cases hbig : csz > job.originalSize ∧ cfg.keep_if_larger = false
    · by_cases hov : cfg.overwrite = false
      · refine ⟨?_, ?_⟩
        · simp only [processFile, hev]
          rw [if_pos hbig, if_pos hov, hrec]
          simp only [eq_self_iff_true, if_true]
          rw [← Multiset.coe_add, ← h1]
          refine foldersFiles_chain_append _ _ _ _ _ ?_ ?_ <;> intro v <;> rfl
        · simp only [processFile, hev]
          rw [if_pos hbig, if_pos hov, hrec]
          simp only [eq_self_iff_true, if_true]
          exact @chain_forall2 (fun v => List.Sublist v.files s.files)
            (fun v => List.Sublist v.files (s.files ++ _))
            s.folder_stats _ _ _ h2 (by simp [zeroFolder]) (fun v hv => hv)
            (fun v hv => List.Sublist.append hv (List.Sublist.refl _))
            (fun v hv => hsub _ v hv)
      · refine ⟨?_, ?_⟩
        · simp only [processFile, hev]
          rw [if_pos hbig, if_neg hov, hrec]
          simp only [eq_self_iff_true, if_true]
          rw [← h1]
          refine foldersFiles_chain_same _ _ _ _ ?_ ?_ <;> intro v <;> rfl
        · simp only [processFile, hev]
          rw [if_pos hbig, if_neg hov, hrec]
          simp only [eq_self_iff_true, if_true]
          exact @chain_forall (fun v => List.Sublist v.files s.files)
            s.folder_stats _ _ _ h2 (by simp [zeroFolder])
            (fun v hv => hv) (fun v hv => hv)
    · refine ⟨?_, ?_⟩
      · simp only [processFile, hev]
        rw [if_neg hbig, hrec]
        simp only [eq_self_iff_true, if_true]
        rw [← Multiset.coe_add, ← h1]
        refine foldersFiles_chain_append _ _ _ _ _ ?_ ?_ <;> intro v <;> rfl
      · simp only [processFile, hev]
        rw [if_neg hbig, hrec]
        simp only [eq_self_iff_true, if_true]
        exact @chain_forall2 (fun v => List.Sublist v.files s.files)
          (fun v => List.Sublist v.files (s.files ++ _))
          s.folder_stats _ _ _ h2 (by simp [zeroFolder]) (fun v hv => hv)
          (fun v hv => List.Sublist.append hv (List.Sublist.refl _))
          (fun v hv => hsub _ v hv)

theorem foldersFiles_card (fs : List (String × FolderStat)) :
    (foldersFiles fs).card = (fs.map fun kv => kv.2.files.length).sum := by
  induction fs with
  | nil => rfl
  | cons kv fs ih =>
    simp only [foldersFiles, List.map_cons, List.sum_cons, Multiset.card_add,
      Multiset.coe_card] at ih ⊢
    rw [ih]

/-- C5: throughout a recursive run, every file record appended to the
run-wide list is appended to the owning folder's list in the same step: after
any job sequence the run-wide list holds exactly the records of the
per-folder lists (as a multiset), each folder's list is an ordered
subsequence of the run-wide list, and the run-wide length equals the sum of
the per-folder lengths. -/
theorem twoLevel_files_consistency (cfg : Config) (hrec : cfg.recursive = true)
    (jobs : List FileJob) (totalTime : ℚ) :
    foldersFiles (runStats cfg jobs totalTime).folder_stats
        = ((runStats cfg jobs totalTime).files : Multiset FileInfo) ∧
    (∀ kv ∈ (runStats cfg jobs totalTime).folder_stats,
      List.Sublist kv.2.files (runStats cfg jobs totalTime).files) ∧
    (runStats cfg jobs totalTime).files.length
        = ((runStats cfg jobs totalTime).folder_stats.map
            fun kv => kv.2.files.length).sum := by
  have main : ∀ (js : List FileJob) (s : RunStats),
      (foldersFiles s.folder_stats = (s.files : Multiset FileInfo) ∧
       ∀ kv ∈ s.folder_stats, List.Sublist kv.2.files s.files) →
      (foldersFiles (js.foldl (processFile cfg) s).folder_stats
          = ((js.foldl (processFile cfg) s).files : Multiset FileInfo) ∧
       ∀ kv ∈ (js.foldl (processFile cfg) s).folder_stats,
         List.Sublist kv.2.files (js.foldl (processFile cfg) s).files) := by
    intro js
    induction js with
    | nil => intro s h; exact h
    | cons j js ih =>
      intro s h
      rw [List.foldl_cons]
      exact ih _ (processFile_files_preserved cfg hrec s j h.1 h.2)
  have h0 : foldersFiles (initStats jobs.length).folder_stats
      = ((initStats jobs.length).files : Multiset FileInfo) ∧
      ∀ kv ∈ (initStats jobs.length).folder_stats,
        List.Sublist kv.2.files (initStats jobs.length).files := by
    constructor
    · rfl
    · intro kv hkv
      simp [initStats] at hkv
  have hm := main jobs (initStats jobs.length) h0
  refine ⟨?_, ?_, ?_⟩
  · simpa [runStats] using hm.1
  · simpa [runStats] using hm.2
  · have hcard := congrArg Multiset.card hm.1
    rw [foldersFiles_card, Multiset.coe_card] at hcard
    simpa [runStats] using hcard.symm

/-- Witness for C5: a recursive run over one erroring file and one skipped
file keeps the run-wide list and the folder lists consistent. -/
theorem twoLevel_files_consistency_witness :
    ((Config.mk true false false).recursive = true) ∧
    (foldersFiles (runStats (Config.mk true false false)
        [FileJob.mk "a/x.mp4" "a" 7 (FileEvent.failed "boom") 0,
         FileJob.mk "a/y.jpg" "a" 5 (FileEvent.skipExisting 3) 0] 0).folder_stats
      = ((runStats (Config.mk true false false)
           [FileJob.mk "a/x.mp4" "a" 7 (FileEvent.failed "boom") 0,
            FileJob.mk "a/y.jpg" "a" 5 (FileEvent.skipExisting 3) 0] 0).files
          : Multiset FileInfo) ∧
     (∀ kv ∈ (runStats (Config.mk true false false)
          [FileJob.mk "a/x.mp4" "a" 7 (FileEvent.failed "boom") 0,
           FileJob.mk "a/y.jpg" "a" 5 (FileEvent.skipExisting 3) 0] 0).folder_stats,
        List.Sublist kv.2.files (runStats (Config.mk true false false)
          [FileJob.mk "a/x.mp4" "a" 7 (FileEvent.failed "boom") 0,
           FileJob.mk "a/y.jpg" "a" 5 (FileEvent.skipExisting 3) 0] 0).files) ∧
     (runStats (Config.mk true false false)
         [FileJob.mk "a/x.mp4" "a" 7 (FileEvent.failed "boom") 0,
          FileJob.mk "a/y.jpg" "a" 5 (FileEvent.skipExisting 3) 0] 0).files.length
       = ((runStats (Config.mk true false false)
            [FileJob.mk "a/x.mp4" "a" 7 (FileEvent.failed "boom") 0,
             FileJob.mk "a/y.jpg" "a" 5 (FileEvent.skipExisting 3) 0] 0).folder_stats.map
           fun kv => kv.2.files.length).sum) :=
  ⟨rfl, twoLevel_files_consistency (Config.mk true false false) rfl
    [FileJob.mk "a/x.mp4" "a" 7 (FileEvent.failed "boom") 0,
     FileJob.mk "a/y.jpg" "a" 5 (FileEvent.skipExisting 3) 0] 0⟩

theorem matchCounter_mk (base suffix : List Char) (k : ℕ) :
    matchCounter base suffix (base ++ (' ' :: '(' :: (natRepr k ++ (')' :: suffix))))
      = some k := by
  have hpre : base <+: (base ++ (' ' :: '(' :: (natRepr k ++ (')' :: suffix)))) :=
    List.prefix_append base _
  have hdrop : (base ++ (' ' :: '(' :: (natRepr k ++ (')' :: suffix)))).drop base.length
      = ' ' :: '(' :: (natRepr k ++ (')' :: suffix)) := List.drop_left base _
  have hws : (' ' :: '(' :: (natRepr k ++ (')' :: suffix))).dropWhile Char.isWhitespace
      = '(' :: (natRepr k ++ (')' :: suffix)) := by
    rw [List.dropWhile_cons_of_pos (by decide), List.dropWhile_cons_of_neg (by decide)]
  have htake : (natRepr k ++ (')' :: suffix)).takeWhile Char.isDigit = natRepr k := by
    rw [takeWhile_append_of_all _ _ (natRepr_all_digits k),
      List.takeWhile_cons_of_neg (by decide), List.append_nil]
  have hdrop2 : (natRepr k ++ (')' :: suffix)).drop (natRepr k).length = ')' :: suffix :=
    List.drop_left _ _
  simp only [matchCounter, if_pos hpre, hdrop, hws, htake, hdrop2]
  rw [if_neg (natRepr_ne_nil k)]
  simp only [if_pos List.prefix_rfl, digitsVal_natRepr]

theorem reportCounterOf_mk (base suffix : List Char) (k : ℕ) :
    reportCounterOf base suffix (base ++ (' ' :: '(' :: (natRepr k ++ (')' :: suffix))))
      = some k := by
  have hglob : globMatch base suffix
      (base ++ (' ' :: '(' :: (natRepr k ++ (')' :: suffix)))) := by
    constructor
    · exact List.prefix_append base _
    · rw [List.drop_left]
      exact ⟨' ' :: '(' :: (natRepr k ++ [')']), by simp⟩
  rw [reportCounterOf, if_pos hglob, matchCounter_mk]

/-- C1 amended: when the natural report path already exists, the chosen path
is "<base> (<n>)<ext>" where base is the stem with one trailing counter
stripped, and n is one greater than the highest counter among sibling files
matched by the code's pattern — name starting with the base, then optional
whitespace, a parenthesised number, then the extension, under the glob
pre-filter — with n = 1 when no sibling matches; the chosen path never
collides with an existing sibling, so no report is ever overwritten. -/
theorem getUniqueReportPath_fresh (siblings : List (List Char))
    (stem suffix : List Char) (hmem : stem ++ suffix ∈ siblings) :
    ∃ n : ℕ,
      getUniqueReportPath siblings stem suffix
        = stripCounterSuffix stem ++ (' ' :: '(' :: (natRepr n ++ (')' :: suffix))) ∧
      (∀ name ∈ siblings, ∀ k,
        reportCounterOf (stripCounterSuffix stem) suffix name = some k → k < n) ∧
      (n = 1 ∨ ∃ name ∈ siblings,
        reportCounterOf (stripCounterSuffix stem) suffix name = some (n - 1)) ∧
      getUniqueReportPath siblings stem suffix ∉ siblings := by
  have hcond : ¬((stem ++ suffix) ∉ siblings) := not_not_intro hmem
  rw [getUniqueReportPath, if_neg hcond]
  simp only []
  refine ⟨if siblings.filterMap (reportCounterOf (stripCounterSuffix stem) suffix) = []
      then 1
      else (siblings.filterMap (reportCounterOf (stripCounterSuffix stem) suffix)).foldl
        max 0 + 1, rfl, ?_, ?_, ?_⟩
  · intro name hname k hk
    have hkmem : k ∈ siblings.filterMap (reportCounterOf (stripCounterSuffix stem) suffix) :=
      List.mem_filterMap.mpr ⟨name, hname, hk⟩
    by_cases hnil : siblings.filterMap (reportCounterOf (stripCounterSuffix stem) suffix) = []
    · rw [hnil] at hkmem
      simp at hkmem
    · rw [if_neg hnil]
      have hle := le_foldl_max _ 0 k hkmem
      omega
  · by_cases hnil : siblings.filterMap (reportCounterOf (stripCounterSuffix stem) suffix) = []
    · left
      rw [if_pos hnil]
    · right
      have hmax : (siblings.filterMap
          (reportCounterOf (stripCounterSuffix stem) suffix)).foldl max 0
          ∈ siblings.filterMap (reportCounterOf (stripCounterSuffix stem) suffix) := by
        rcases foldl_max_mem
          (siblings.filterMap (reportCounterOf (stripCounterSuffix stem) suffix)) 0 with
          h | h
        · exact h
        · rcases List.exists_mem_of_ne_nil _ hnil with ⟨x, hx⟩
          have hx0 := le_foldl_max
            (siblings.filterMap (reportCounterOf (stripCounterSuffix stem) suffix)) 0 x hx
          rw [h] at hx0 ⊢
          have hx1 : x = 0 := Nat.le_zero.mp hx0
          rw [← hx1]
          exact hx
      rcases List.mem_filterMap.mp hmax with ⟨name, hname, hfm⟩
      refine ⟨name, hname, ?_⟩
      rw [if_neg hnil]
      simpa using hfm
  · intro hbad
    have hsome := reportCounterOf_mk (stripCounterSuffix stem) suffix
      (if siblings.filterMap (reportCounterOf (stripCounterSuffix stem) suffix) = []
        then 1
        else (siblings.filterMap (reportCounterOf (stripCounterSuffix stem) suffix)).foldl
          max 0 + 1)
    have hnmem := List.mem_filterMap.mpr ⟨_, hbad, hsome⟩
    by_cases hnil : siblings.filterMap (reportCounterOf (stripCounterSuffix stem) suffix) = []
    · rw [hnil] at hnmem
      simp at hnmem
    · have hle := le_foldl_max _ 0 _ hnmem
      rw [if_neg hnil] at hle
      omega

/-- C1 counterexample: with existing siblings "report.csv" and
"report(2).csv", the code's tolerant pattern (optional whitespace before the
parenthesis) counts the counter 2 and writes "report (3).csv", while the
claim's literal template "<base> (<number>)<ext>" matches no sibling and
predicts "report (1).csv". -/
theorem getUniqueReportPath_claim_cex :
    getUniqueReportPath ["report.csv".toList, "report(2).csv".toList]
        "report".toList ".csv".toList = "report (3).csv".toList ∧
    specUniqueReportPath ["report.csv".toList, "report(2).csv".toList]
        "report".toList ".csv".toList = "report (1).csv".toList ∧
    getUniqueReportPath ["report.csv".toList, "report(2).csv".toList]
        "report".toList ".csv".toList
      ≠ specUniqueReportPath ["report.csv".toList, "report(2).csv".toList]
          "report".toList ".csv".toList := by
  decide

/-- Witness for C1: with siblings "report.csv" and "report (1).csv" the
report is renamed to "report (2).csv", which collides with no sibling. -/
theorem getUniqueReportPath_fresh_witness :
    ("report".toList ++ ".csv".toList
        ∈ ["report.csv".toList, "report (1).csv".toList]) ∧
    getUniqueReportPath ["report.csv".toList, "report (1).csv".toList]
        "report".toList ".csv".toList = "report (2).csv".toList ∧
    (∃ n : ℕ,
      getUniqueReportPath ["report.csv".toList, "report (1).csv".toList]
          "report".toList ".csv".toList
        = stripCounterSuffix "report".toList
            ++ (' ' :: '(' :: (natRepr n ++ (')' :: ".csv".toList))) ∧
      (∀ name ∈ ["report.csv".toList, "report (1).csv".toList], ∀ k,
        reportCounterOf (stripCounterSuffix "report".toList) ".csv".toList name
            = some k → k < n) ∧
      (n = 1 ∨ ∃ name ∈ ["report.csv".toList, "report (1).csv".toList],
        reportCounterOf (stripCounterSuffix "report".toList) ".csv".toList name
            = some (n - 1)) ∧
      getUniqueReportPath ["report.csv".toList, "report (1).csv".toList]
          "report".toList ".csv".toList
        ∉ ["report.csv".toList, "report (1).csv".toList]) :=
  ⟨by decide, by decide,
   getUniqueReportPath_fresh ["report.csv".toList, "report (1).csv".toList]
     "report".toList ".csv".toList (by decide)⟩
